import Mathlib

/-!
Verification development for the vdsm STOMP async dispatcher and the
virt metadata key/value marshaling.

The STOMP module (`yajsonrpc/stomp.py`) itself is not part of the source
tree here, only its unit tests are; its data model and operations are
modelled from the specification (wire format, heartbeat engine formulas,
dispatcher state machine) and checked for consistency with those tests.
The metadata marshaling (`lib/vdsm/virt/metadata.py`) is embedded
directly from the source.
-/

namespace Vdsm

/-! ## Decimal integer printing and parsing

Models Python's `str(n)` for integers and the builtin `int(s)` parse on
canonical decimal inputs (an optional leading minus sign followed by
decimal digits). -/

/-- Little-endian decimal digits of a natural number (empty for 0). -/
def natDigitsRev (n : Nat) : List Nat :=
  if h : n = 0 then [] else n % 10 :: natDigitsRev (n / 10)
decreasing_by exact Nat.div_lt_self (Nat.pos_of_ne_zero h) (by omega)

/-- Value of a little-endian decimal digit list. -/
def valDigits : List Nat → Nat
  | [] => 0
  | d :: r => d + 10 * valDigits r

/-- Character for a single decimal digit. -/
def digitChar (d : Nat) : Char :=
  match d with
  | 0 => '0' | 1 => '1' | 2 => '2' | 3 => '3' | 4 => '4'
  | 5 => '5' | 6 => '6' | 7 => '7' | 8 => '8' | _ => '9'

/-- Decimal digit denoted by a character, if any. -/
def charToDigit? (c : Char) : Option Nat :=
  if c = '0' then some 0 else if c = '1' then some 1
  else if c = '2' then some 2 else if c = '3' then some 3
  else if c = '4' then some 4 else if c = '5' then some 5
  else if c = '6' then some 6 else if c = '7' then some 7
  else if c = '8' then some 8 else if c = '9' then some 9
  else none

/-- Python `str` of a non-negative integer. -/
def natToStr (n : Nat) : String :=
  if n = 0 then "0" else String.mk ((natDigitsRev n).reverse.map digitChar)

/-- Parse a non-empty all-digit string as a natural number (Python `int`
on canonical non-negative decimal input). -/
def parseNat? (s : String) : Option Nat :=
  if s.data = [] then none
  else if s.data.all (fun c => (charToDigit? c).isSome) then
    some (valDigits (s.data.reverse.map fun c => (charToDigit? c).getD 0))
  else none

/-- Python `str` of an integer. -/
def intToStr (n : Int) : String :=
  if n < 0 then "-" ++ natToStr (-n).toNat else natToStr n.toNat

/-- Python `int(s)` on canonical decimal input: optional minus sign then
digits; `none` models a `ValueError`. -/
def parseInt? (s : String) : Option Int :=
  if s.data ≠ [] ∧ s.data.headI = '-' then
    (parseNat? (String.mk s.data.tail)).map (fun m : Nat => -(m : Int))
  else (parseNat? s).map (fun m : Nat => (m : Int))

theorem string_mk_data (s : String) : String.mk s.data = s := by
  cases s; rfl

theorem valDigits_natDigitsRev (n : Nat) : valDigits (natDigitsRev n) = n := by
  induction n using Nat.strong_induction_on with
  | _ n ih =>
    by_cases h : n = 0
    · subst h; simp [natDigitsRev, valDigits]
    · rw [natDigitsRev]
      simp only [h, dite_false]
      rw [valDigits, ih (n / 10) (Nat.div_lt_self (Nat.pos_of_ne_zero h) (by omega))]
      omega

theorem natDigitsRev_lt (n : Nat) : ∀ d ∈ natDigitsRev n, d < 10 := by
  induction n using Nat.strong_induction_on with
  | _ n ih =>
    by_cases h : n = 0
    · subst h; simp [natDigitsRev]
    · rw [natDigitsRev]
      simp only [h, dite_false, List.mem_cons]
      rintro d (rfl | hd)
      · omega
      · exact ih (n / 10) (Nat.div_lt_self (Nat.pos_of_ne_zero h) (by omega)) d hd

theorem natDigitsRev_ne_nil (n : Nat) (h : n ≠ 0) : natDigitsRev n ≠ [] := by
  rw [natDigitsRev]; simp [h]

theorem charToDigit?_digitChar (d : Nat) (hd : d < 10) :
    charToDigit? (digitChar d) = some d := by
  interval_cases d <;> rfl

/-- Every character of `natToStr n` is a decimal digit. -/
theorem natToStr_digits (n : Nat) :
    ∀ c ∈ (natToStr n).data, (charToDigit? c).isSome := by
  rw [natToStr]
  by_cases h : n = 0
  · simp only [h, ite_true]
    intro c hc
    rw [List.mem_singleton] at hc
    subst hc; rfl
  · simp only [h, ite_false]
    intro c hc
    rw [List.mem_map] at hc
    obtain ⟨d, hd, rfl⟩ := hc
    rw [List.mem_reverse] at hd
    rw [charToDigit?_digitChar d (natDigitsRev_lt n d hd)]
    rfl

theorem parseNat?_natToStr (n : Nat) : parseNat? (natToStr n) = some n := by
  by_cases h : n = 0
  · subst h; rfl
  · have hdata : (natToStr n).data = (natDigitsRev n).reverse.map digitChar := by
      rw [natToStr]; simp [h]
    have hne : (natToStr n).data ≠ [] := by
      rw [hdata]; simp [natDigitsRev_ne_nil n h]
    have hall : (natToStr n).data.all (fun c => (charToDigit? c).isSome) = true := by
      rw [List.all_eq_true]
      intro c hc
      simpa using natToStr_digits n c hc
    rw [parseNat?]
    simp only [hne, ite_false, hall, if_true]
    congr 1
    rw [hdata, List.map_reverse, List.map_map, List.map_reverse, List.reverse_reverse]
    have h1 : ∀ a ∈ natDigitsRev n,
        ((fun c => (charToDigit? c).getD 0) ∘ digitChar) a = id a := by
      intro a ha
      simp [Function.comp, charToDigit?_digitChar a (natDigitsRev_lt n a ha)]
    rw [List.map_congr_left h1, List.map_id, valDigits_natDigitsRev]

theorem parseInt?_intToStr (n : Int) : parseInt? (intToStr n) = some n := by
  by_cases h : n < 0
  · have hmk : intToStr n = "-" ++ natToStr (-n).toNat := by rw [intToStr]; simp [h]
    have hdata : (intToStr n).data = '-' :: (natToStr (-n).toNat).data := by
      rw [hmk]; rfl
    rw [parseInt?, hdata]
    rw [if_pos (by simp)]
    simp only [List.tail_cons, string_mk_data, parseNat?_natToStr]
    have hnn : ((-n).toNat : Int) = -n := Int.toNat_of_nonneg (by omega)
    simp [hnn]
  · have hmk : intToStr n = natToStr n.toNat := by rw [intToStr]; simp [h]
    have hdig := natToStr_digits n.toNat
    have hcond : ¬((natToStr n.toNat).data ≠ [] ∧ (natToStr n.toNat).data.headI = '-') := by
      rintro ⟨hne, hhead⟩
      rcases hd : (natToStr n.toNat).data with _ | ⟨c, cs⟩
      · exact hne hd
      · rw [hd] at hhead
        simp only [List.headI] at hhead
        have hmem := hdig c (by rw [hd]; exact List.mem_cons_self _ _)
        rw [hhead] at hmem
        simp [charToDigit?] at hmem
    rw [hmk, parseInt?, if_neg hcond, parseNat?_natToStr]
    have hnn : (n.toNat : Int) = n := Int.toNat_of_nonneg (by omega)
    simp [hnn]

/-! ## STOMP frame codec

The `yajsonrpc/stomp.py` module is not in the source tree (only its unit
tests are), so the codec is modelled from the specification: wire format
`COMMAND<EOL>name:value<EOL>...<EOL><EOL>body<NUL>`, header-value escapes
EOL to backslash-n, colon to backslash-c, backslash to double backslash,
content-length-aware body framing, and a bare EOL as heartbeat marker. -/

/-- Modelled from the spec: the closed command enumeration of the STOMP
module (missing from src); the heartbeat marker is represented as an
absent command on `Frame`. -/
inductive Command
  | connect | connected | message | send | subscribe | unsubscribe
  | ack | nack | error | receipt | disconnect
  deriving DecidableEq, Repr

/-- Modelled from the spec: wire text of each command. -/
def Command.text : Command → String
  | .connect => "CONNECT"
  | .connected => "CONNECTED"
  | .message => "MESSAGE"
  | .send => "SEND"
  | .subscribe => "SUBSCRIBE"
  | .unsubscribe => "UNSUBSCRIBE"
  | .ack => "ACK"
  | .nack => "NACK"
  | .error => "ERROR"
  | .receipt => "RECEIPT"
  | .disconnect => "DISCONNECT"

/-- Modelled from the spec: recognize a command token; an unknown token is
a `MalformedFrame` condition. -/
def parseCommand (s : String) : Option Command :=
  if s = "CONNECT" then some .connect
  else if s = "CONNECTED" then some .connected
  else if s = "MESSAGE" then some .message
  else if s = "SEND" then some .send
  else if s = "SUBSCRIBE" then some .subscribe
  else if s = "UNSUBSCRIBE" then some .unsubscribe
  else if s = "ACK" then some .ack
  else if s = "NACK" then some .nack
  else if s = "ERROR" then some .error
  else if s = "RECEIPT" then some .receipt
  else if s = "DISCONNECT" then some .disconnect
  else none

/-- Modelled from the spec: a STOMP frame — a command (`none` is the
zero-length heartbeat marker), an ordered header mapping, and an optional
body (empty string models an absent body). -/
structure Frame where
  command : Option Command
  headers : List (String × String)
  body : String
  deriving DecidableEq, Repr

/-- Modelled from the spec: the heartbeat marker frame, with no command
and no body. -/
def heartbeatFrame : Frame := ⟨none, [], ""⟩

/-- Modelled from the spec: escape a header value for the wire — EOL to
backslash-n, colon to backslash-c, backslash to double backslash. -/
def escapeChars : List Char → List Char
  | [] => []
  | c :: rest =>
    (if c = '\\' then ['\\', '\\']
     else if c = '\n' then ['\\', 'n']
     else if c = ':' then ['\\', 'c']
     else [c]) ++ escapeChars rest

/-- Modelled from the spec: reverse exactly the three header-value escapes
and no others. -/
def unescapeChars : List Char → List Char
  | [] => []
  | c :: rest =>
    if c = '\\' then
      match rest with
      | [] => [c]
      | d :: rest2 =>
        if d = 'n' then '\n' :: unescapeChars rest2
        else if d = 'c' then ':' :: unescapeChars rest2
        else if d = '\\' then '\\' :: unescapeChars rest2
        else c :: d :: unescapeChars rest2
    else c :: unescapeChars rest

theorem unescapeChars_escapeChars (l : List Char) :
    unescapeChars (escapeChars l) = l := by
  induction l with
  | nil => rfl
  | cons c rest ih =>
    by_cases h1 : c = '\\'
    · subst h1
      simp only [escapeChars, if_pos rfl, List.cons_append, List.nil_append]
      rw [unescapeChars.eq_def]
      simp [ih]
    · by_cases h2 : c = '\n'
      · subst h2
        simp only [escapeChars, if_neg h1, if_pos rfl, List.cons_append, List.nil_append]
        rw [unescapeChars.eq_def]
        simp [ih]
      · by_cases h3 : c = ':'
        · subst h3
          simp only [escapeChars, if_neg h1, if_neg h2, if_pos rfl,
            List.cons_append, List.nil_append]
          rw [unescapeChars.eq_def]
          simp [ih]
        · simp only [escapeChars, if_neg h1, if_neg h2, if_neg h3,
            List.cons_append, List.nil_append]
          rw [unescapeChars.eq_def]
          simp [h1, ih]

/-- The escaped form of a header value contains neither an EOL nor a
colon (both are always emitted in escaped form). -/
theorem escapeChars_mem_ne (l : List Char) :
    ∀ x ∈ escapeChars l, x ≠ '\n' ∧ x ≠ ':' := by
  induction l with
  | nil => simp [escapeChars]
  | cons a rest ih =>
    intro x hx
    rw [escapeChars, List.mem_append] at hx
    rcases hx with hx | hx
    · by_cases h1 : a = '\\'
      · rw [if_pos h1] at hx
        simp at hx
        subst hx; exact ⟨by decide, by decide⟩
      · by_cases h2 : a = '\n'
        · rw [if_neg h1, if_pos h2] at hx
          simp at hx
          rcases hx with hx | hx <;> (subst hx; exact ⟨by decide, by decide⟩)
        · by_cases h3 : a = ':'
          · rw [if_neg h1, if_neg h2, if_pos h3] at hx
            simp at hx
            rcases hx with hx | hx <;> (subst hx; exact ⟨by decide, by decide⟩)
          · rw [if_neg h1, if_neg h2, if_neg h3] at hx
            simp at hx
            subst hx; exact ⟨h2, h3⟩
    · exact ih x hx

/-- Split a character list at the first occurrence of `c`; the separator
itself is consumed. -/
def splitAtChar (c : Char) : List Char → Option (List Char × List Char)
  | [] => none
  | a :: rest =>
    if a = c then some ([], rest)
    else
      match splitAtChar c rest with
      | none => none
      | some (x, y) => some (a :: x, y)

theorem splitAtChar_some (c : Char) (l x y : List Char)
    (h : splitAtChar c l = some (x, y)) : l = x ++ c :: y ∧ c ∉ x := by
  induction l generalizing x y with
  | nil => simp [splitAtChar] at h
  | cons a rest ih =>
    rw [splitAtChar] at h
    by_cases ha : a = c
    · rw [if_pos ha] at h
      injection h with h
      injection h with h1 h2
      subst h1; subst h2; subst ha
      simp
    · rw [if_neg ha] at h
      rcases hs : splitAtChar c rest with _ | ⟨x2, y2⟩
      · rw [hs] at h; cases h
      · rw [hs] at h
        injection h with h
        injection h with h1 h2
        obtain ⟨he, hm⟩ := ih x2 y2 hs
        subst h1; subst h2
        constructor
        · rw [he]; rfl
        · intro hmem
          rcases List.mem_cons.1 hmem with hmem | hmem
          · exact ha hmem.symm
          · exact hm hmem

theorem splitAtChar_not_mem_append (c : Char) (l1 l2 : List Char)
    (h : c ∉ l1) : splitAtChar c (l1 ++ c :: l2) = some (l1, l2) := by
  induction l1 with
  | nil => simp [splitAtChar]
  | cons a rest ih =>
    have ha : a ≠ c := fun hc => h (hc ▸ List.mem_cons_self _ _)
    rw [List.cons_append, splitAtChar, if_neg ha,
      ih (fun hm => h (List.mem_cons_of_mem _ hm))]

theorem splitAtChar_append_some (c : Char) (l s x y : List Char)
    (h : splitAtChar c l = some (x, y)) :
    splitAtChar c (l ++ s) = some (x, y ++ s) := by
  obtain ⟨he, hm⟩ := splitAtChar_some c l x y h
  rw [he, List.append_assoc, List.cons_append]
  exact splitAtChar_not_mem_append c x (y ++ s) hm

/-- Modelled from the spec: header lookup — duplicate header names, first
occurrence wins. -/
def lookupHeader (k : String) : List (String × String) → Option String
  | [] => none
  | kv :: rest => if kv.1 = k then some kv.2 else lookupHeader k rest

/-- Modelled from the spec: keep the first occurrence of each header
name. -/
def dedupKeys : List (String × String) → List (String × String)
  | [] => []
  | kv :: rest => kv :: dedupKeys (rest.filter (fun kv2 => kv2.1 != kv.1))
termination_by l => l.length
decreasing_by
  have := List.length_filter_le (fun kv2 => kv2.1 != kv.1) rest
  simp only [List.length_cons]
  omega

theorem dedupKeys_of_nodup (l : List (String × String))
    (h : (l.map Prod.fst).Nodup) : dedupKeys l = l := by
  induction l with
  | nil => simp [dedupKeys]
  | cons kv rest ih =>
    rw [List.map_cons, List.nodup_cons] at h
    obtain ⟨hk, hrest⟩ := h
    simp only [dedupKeys]
    have hfilter : rest.filter (fun kv2 => kv2.1 != kv.1) = rest := by
      rw [List.filter_eq_self]
      intro a ha
      simp only [bne_iff_ne, ne_eq, decide_eq_true_eq]
      intro hc
      exact hk (hc ▸ List.mem_map_of_mem Prod.fst ha)
    rw [hfilter, ih hrest]

/-- Modelled from the spec: one encoded header line,
`name:escaped-value<EOL>`. -/
def encodeHeaderLine (kv : String × String) : List Char :=
  kv.1.data ++ ':' :: escapeChars kv.2.data ++ ['\n']

/-- Modelled from the spec: `encode(frame)` — command line, header lines,
blank line, body bytes, trailing NUL; a heartbeat marker encodes as a bare
EOL; if the body is non-empty and no content-length header is present one
is added with the body's byte length. -/
def encode (f : Frame) : List Char :=
  match f.command with
  | none => ['\n']
  | some cmd =>
    let hs := if f.body ≠ "" ∧ lookupHeader "content-length" f.headers = none
              then f.headers ++ [("content-length", natToStr f.body.length)]
              else f.headers
    cmd.text.data ++ '\n' :: (hs.map encodeHeaderLine).flatten ++ '\n' :: (f.body.data ++ ['\x00'])

/-- Modelled from the spec: result of parsing the header section of a
frame. -/
inductive HeadersResult where
  | incomplete
  | malformed
  | ok (hs : List (String × String)) (rest : List Char)
  deriving DecidableEq, Repr

/-- Modelled from the spec: parse `name:value<EOL>` header lines up to and
including the blank line that terminates the header section; values are
unescaped. -/
def parseHeaders (buf : List Char) : HeadersResult :=
  match buf with
  | [] => .incomplete
  | c :: rest =>
    if c = '\n' then .ok [] rest
    else
      match hsplit : splitAtChar '\n' (c :: rest) with
      | none => .incomplete
      | some (line, rest2) =>
        match splitAtChar ':' line with
        | none => .malformed
        | some (name, rawv) =>
          match parseHeaders rest2 with
          | .incomplete => .incomplete
          | .malformed => .malformed
          | .ok hs r => .ok ((String.mk name, String.mk (unescapeChars rawv)) :: hs) r
termination_by buf.length
decreasing_by
  obtain ⟨he, hm⟩ := splitAtChar_some '\n' (c :: rest) line rest2 hsplit
  have hlen := congrArg List.length he
  simp only [List.length_cons, List.length_append] at hlen ⊢
  omega

/-- Modelled from the spec: result of `decode(buffer)` — a complete frame
with the byte count consumed, an incomplete-frame signal (none consumed),
or a `MalformedFrame` condition. -/
inductive DecodeResult where
  | incomplete
  | malformed
  | ok (f : Frame) (consumed : Nat)
  deriving DecidableEq, Repr

/-- Modelled from the spec: `decode(buffer)` — a bare EOL decodes as the
heartbeat marker consuming just that terminator; otherwise parse the
command line, the header section, and a content-length-counted or
NUL-terminated body; duplicate header names keep the first occurrence. -/
def decode (buf : List Char) : DecodeResult :=
  match buf with
  | [] => .incomplete
  | c :: rest =>
    if c = '\n' then .ok heartbeatFrame 1
    else
      match splitAtChar '\n' (c :: rest) with
      | none => .incomplete
      | some (cmdLine, r1) =>
        match parseCommand (String.mk cmdLine) with
        | none => .malformed
        | some cmd =>
          match parseHeaders r1 with
          | .incomplete => .incomplete
          | .malformed => .malformed
          | .ok rawHs r2 =>
            let hs := dedupKeys rawHs
            match lookupHeader "content-length" hs with
            | some lv =>
              match parseNat? lv with
              | none => .malformed
              | some n =>
                if n + 1 ≤ r2.length then
                  match r2.drop n with
                  | d :: r3 =>
                    if d = '\x00' then
                      .ok ⟨some cmd, hs, String.mk (r2.take n)⟩ ((c :: rest).length - r3.length)
                    else .malformed
                  | [] => .incomplete
                else .incomplete
            | none =>
              match splitAtChar '\x00' r2 with
              | none => .incomplete
              | some (bodyChars, r3) =>
                .ok ⟨some cmd, hs, String.mk bodyChars⟩ ((c :: rest).length - r3.length)

/-- Modelled from the spec: a well-formed frame — a heartbeat marker has
no headers and no body; a command frame has distinct header names free of
the colon and EOL wire delimiters, and a body consistent with any
content-length header (the header is present and holds the body's byte
length whenever the body is non-empty). -/
def WellFormed (f : Frame) : Prop :=
  if f.command = none then f.headers = [] ∧ f.body = ""
  else
    (f.headers.map Prod.fst).Nodup ∧
    (∀ kv ∈ f.headers, ':' ∉ kv.1.data ∧ '\n' ∉ kv.1.data) ∧
    (lookupHeader "content-length" f.headers = some (natToStr f.body.length) ∨
     (lookupHeader "content-length" f.headers = none ∧ f.body = ""))

instance (f : Frame) : Decidable (WellFormed f) := by
  unfold WellFormed
  infer_instance

theorem parseCommand_text (c : Command) : parseCommand c.text = some c := by
  cases c <;> rfl

theorem command_text_shape (c : Command) :
    c.text.data ≠ [] ∧ c.text.data.headI ≠ '\n' ∧ '\n' ∉ c.text.data := by
  cases c <;> decide

/-- Parsing the encoding of a header block recovers the headers and the
suffix after the blank line. -/
theorem parseHeaders_encode (hs : List (String × String)) (tail : List Char)
    (hwf : ∀ kv ∈ hs, ':' ∉ kv.1.data ∧ '\n' ∉ kv.1.data) :
    parseHeaders ((hs.map encodeHeaderLine).flatten ++ '\n' :: tail) = .ok hs tail := by
  induction hs generalizing tail with
  | nil =>
    simp only [List.map_nil, List.flatten_nil, List.nil_append]
    rw [parseHeaders.eq_def]
    simp
  | cons kv t ih =>
    obtain ⟨hn1, hn2⟩ := hwf kv (List.mem_cons_self _ _)
    have hwf2 : ∀ kv2 ∈ t, ':' ∉ kv2.1.data ∧ '\n' ∉ kv2.1.data :=
      fun kv2 hm => hwf kv2 (List.mem_cons_of_mem _ hm)
    have hLeol : '\n' ∉ kv.1.data ++ ':' :: escapeChars kv.2.data := by
      intro hmem
      rcases List.mem_append.1 hmem with hm | hm
      · exact hn2 hm
      · rcases List.mem_cons.1 hm with hm | hm
        · exact absurd hm (by decide)
        · exact (escapeChars_mem_ne kv.2.data _ hm).1 rfl
    have hbuf : ((kv :: t).map encodeHeaderLine).flatten ++ '\n' :: tail
        = (kv.1.data ++ ':' :: escapeChars kv.2.data) ++ '\n' ::
          ((t.map encodeHeaderLine).flatten ++ '\n' :: tail) := by
      simp [encodeHeaderLine, List.append_assoc]
    rw [hbuf]
    have hsplit1 : splitAtChar '\n'
        ((kv.1.data ++ ':' :: escapeChars kv.2.data) ++ '\n' ::
          ((t.map encodeHeaderLine).flatten ++ '\n' :: tail))
        = some (kv.1.data ++ ':' :: escapeChars kv.2.data,
            (t.map encodeHeaderLine).flatten ++ '\n' :: tail) :=
      splitAtChar_not_mem_append _ _ _ hLeol
    have hsplit2 : splitAtChar ':' (kv.1.data ++ ':' :: escapeChars kv.2.data)
        = some (kv.1.data, escapeChars kv.2.data) :=
      splitAtChar_not_mem_append _ _ _ hn1
    rcases hB : (kv.1.data ++ ':' :: escapeChars kv.2.data) ++ '\n' ::
        ((t.map encodeHeaderLine).flatten ++ '\n' :: tail) with _ | ⟨c, brest⟩
    · exact absurd hB (by rcases kv.1.data with _ | ⟨a, as⟩ <;> simp)
    · have hchead : c ≠ '\n' := by
        intro hc
        subst hc
        rcases hcd : kv.1.data with _ | ⟨a, as⟩
        · rw [hcd] at hB
          simp only [List.nil_append, List.cons_append, List.cons.injEq] at hB
          exact absurd hB.1.symm (by decide)
        · rw [hcd] at hB
          simp only [List.cons_append, List.cons.injEq] at hB
          apply hn2
          rw [hcd, ← hB.1]
          exact List.mem_cons_self _ _
      rw [parseHeaders.eq_def]
      simp only [if_neg hchead]
      rw [hB] at hsplit1
      split
      · rename_i heq
        rw [hsplit1] at heq
        cases heq
      · rename_i line rest2 heq
        rw [hsplit1] at heq
        injection heq with heq
        rw [Prod.mk.injEq] at heq
        obtain ⟨hl, hr⟩ := heq
        subst hl
        subst hr
        rw [hsplit2]
        simp [unescapeChars_escapeChars, string_mk_data, ih tail hwf2]

/-- Decoding the encoding of a well-formed frame yields the frame back and
consumes the whole encoding. -/
theorem decode_encode (f : Frame) (h : WellFormed f) :
    decode (encode f) = .ok f (encode f).length := by
  obtain ⟨cmdo, hdrs, body⟩ := f
  rcases cmdo with _ | cmd
  · rw [WellFormed] at h
    simp only [if_pos rfl] at h
    obtain ⟨h1, h2⟩ := h
    subst h1
    subst h2
    rfl
  · rw [WellFormed, if_neg (by simp)] at h
    obtain ⟨hnodup, hnames, hcl⟩ := h
    have hnoadd : ¬(body ≠ "" ∧ lookupHeader "content-length" hdrs = none) := by
      rcases hcl with hcl | ⟨hcl, hbody⟩
      · rintro ⟨_, hc⟩
        rw [hcl] at hc
        cases hc
      · rintro ⟨hc, _⟩
        exact hc hbody
    have henc : encode ⟨some cmd, hdrs, body⟩ =
        cmd.text.data ++ '\n' ::
          ((hdrs.map encodeHeaderLine).flatten ++ '\n' :: (body.data ++ ['\x00'])) := by
      rw [encode, if_neg hnoadd]
      show cmd.text.data ++ '\n' :: (List.map encodeHeaderLine hdrs).flatten ++
          '\n' :: (body.data ++ ['\x00']) = _
      rw [List.append_assoc, List.cons_append]
    obtain ⟨hne, hhead, hnoeol⟩ := command_text_shape cmd
    have hsplit1 : splitAtChar '\n' (encode ⟨some cmd, hdrs, body⟩) =
        some (cmd.text.data,
          (hdrs.map encodeHeaderLine).flatten ++ '\n' :: (body.data ++ ['\x00'])) := by
      rw [henc]
      exact splitAtChar_not_mem_append _ _ _ hnoeol
    have hph : parseHeaders ((hdrs.map encodeHeaderLine).flatten ++ '\n' :: (body.data ++ ['\x00']))
        = .ok hdrs (body.data ++ ['\x00']) := parseHeaders_encode hdrs _ hnames
    have hdedup : dedupKeys hdrs = hdrs := dedupKeys_of_nodup hdrs hnodup
    rcases hcd : cmd.text.data with _ | ⟨a, as⟩
    · exact absurd hcd hne
    · have hachar : a ≠ '\n' := by
        rw [hcd] at hhead
        simpa using hhead
      have hbufeq : encode ⟨some cmd, hdrs, body⟩ =
          a :: (as ++ '\n' ::
            ((hdrs.map encodeHeaderLine).flatten ++ '\n' :: (body.data ++ ['\x00']))) := by
        rw [henc, hcd]
        rfl
      rw [hbufeq] at hsplit1 ⊢
      rw [decode.eq_def]
      simp only [if_neg hachar]
      rw [hsplit1]
      simp only []
      rw [string_mk_data, parseCommand_text]
      simp only []
      rw [hph]
      simp only [hdedup]
      rcases hcl with hcl | ⟨hcl, hbody⟩
      · rw [hcl]
        simp only []
        rw [parseNat?_natToStr]
        simp only []
        have hlen : body.length = body.data.length := rfl
        have hgoal1 : body.length + 1 ≤ (body.data ++ ['\x00']).length := by
          rw [List.length_append]
          have h1 : (['\x00'] : List Char).length = 1 := rfl
          omega
        rw [if_pos hgoal1]
        have hdrop : (body.data ++ ['\x00']).drop body.length = ['\x00'] := by
          rw [hlen]
          exact List.drop_left body.data ['\x00']
        rw [hdrop]
        simp only [if_pos rfl]
        have htake : (body.data ++ ['\x00']).take body.length = body.data := by
          rw [hlen]
          exact List.take_left body.data ['\x00']
        rw [htake, string_mk_data]
        simp only [List.length_nil, Nat.sub_zero]
        exact if_pos trivial
      · subst hbody
        rw [hcl]
        simp only []
        have hsplitnul : splitAtChar '\x00' ((("" : String)).data ++ ['\x00']) =
            some ([], []) := rfl
        rw [hsplitnul]
        simp only [List.length_nil, Nat.sub_zero]

/-- Unfolding of `parseHeaders` on a buffer that does not start with the
blank line. -/
theorem parseHeaders_cons_ne (c : Char) (rest : List Char) (hc : c ≠ '\n') :
    parseHeaders (c :: rest) =
      match splitAtChar '\n' (c :: rest) with
      | none => .incomplete
      | some (line, rest2) =>
        match splitAtChar ':' line with
        | none => .malformed
        | some (nm, rawv) =>
          match parseHeaders rest2 with
          | .incomplete => .incomplete
          | .malformed => .malformed
          | .ok hs r => .ok ((String.mk nm, String.mk (unescapeChars rawv)) :: hs) r := by
  rw [parseHeaders.eq_def]
  simp only [if_neg hc]
  split
  · rename_i heq
    rw [heq]
  · rename_i line rest2 heq
    rw [heq]

/-- Appending bytes to a buffer preserves a complete header-section parse
(with the suffix carried through) and preserves a malformed one. -/
theorem parseHeaders_append (n : Nat) : ∀ p : List Char, p.length ≤ n → ∀ s : List Char,
    (∀ hs r, parseHeaders p = .ok hs r → parseHeaders (p ++ s) = .ok hs (r ++ s)) ∧
    (parseHeaders p = .malformed → parseHeaders (p ++ s) = .malformed) := by
  induction n with
  | zero =>
    intro p hp s
    have hpnil : p = [] := List.length_eq_zero.1 (Nat.le_zero.1 hp)
    subst hpnil
    constructor
    · intro hs r h
      simp [parseHeaders] at h
    · intro h
      simp [parseHeaders] at h
  | succ n ih =>
    intro p hp s
    rcases p with _ | ⟨c, rest⟩
    · constructor
      · intro hs r h
        simp [parseHeaders] at h
      · intro h
        simp [parseHeaders] at h
    · by_cases hc : c = '\n'
      · subst hc
        constructor
        · intro hs r h
          rw [parseHeaders.eq_def] at h
          simp only [if_pos rfl] at h
          injection h with h1 h2
          subst h1
          subst h2
          rw [List.cons_append, parseHeaders.eq_def]
          simp
        · intro h
          rw [parseHeaders.eq_def] at h
          simp only [if_pos rfl] at h
          cases h
      · rcases h1 : splitAtChar '\n' (c :: rest) with _ | ⟨line, rest2⟩
        · constructor
          · intro hs r h
            rw [parseHeaders_cons_ne c rest hc, h1] at h
            cases h
          · intro h
            rw [parseHeaders_cons_ne c rest hc, h1] at h
            cases h
        · have hlen2 : rest2.length ≤ n := by
            obtain ⟨he, _⟩ := splitAtChar_some '\n' (c :: rest) line rest2 h1
            have hl := congrArg List.length he
            simp only [List.length_cons, List.length_append] at hl
            simp only [List.length_cons] at hp
            omega
          have h1' : splitAtChar '\n' (c :: (rest ++ s)) = some (line, rest2 ++ s) := by
            have := splitAtChar_append_some '\n' (c :: rest) s line rest2 h1
            rwa [List.cons_append] at this
          rcases h2 : splitAtChar ':' line with _ | ⟨nm, rawv⟩
          · constructor
            · intro hs r h
              rw [parseHeaders_cons_ne c rest hc, h1] at h
              simp only [h2] at h
              cases h
            · intro h
              rw [List.cons_append, parseHeaders_cons_ne c (rest ++ s) hc, h1']
              simp only [h2]
          · rcases h3 : parseHeaders rest2 with _ | _ | ⟨hs2, r2⟩
            · constructor
              · intro hs r h
                rw [parseHeaders_cons_ne c rest hc, h1] at h
                simp only [h2, h3] at h
                cases h
              · intro h
                rw [parseHeaders_cons_ne c rest hc, h1] at h
                simp only [h2, h3] at h
                cases h
            · have hmal := (ih rest2 hlen2 s).2 h3
              constructor
              · intro hs r h
                rw [parseHeaders_cons_ne c rest hc, h1] at h
                simp only [h2, h3] at h
                cases h
              · intro h
                rw [List.cons_append, parseHeaders_cons_ne c (rest ++ s) hc, h1']
                simp only [h2, hmal]
            · have hok := (ih rest2 hlen2 s).1 hs2 r2 h3
              constructor
              · intro hs r h
                rw [parseHeaders_cons_ne c rest hc, h1] at h
                simp only [h2, h3] at h
                injection h with hA hB
                subst hA
                subst hB
                rw [List.cons_append, parseHeaders_cons_ne c (rest ++ s) hc, h1']
                simp only [h2, hok]
              · intro h
                rw [parseHeaders_cons_ne c rest hc, h1] at h
                simp only [h2, h3] at h
                cases h

/-- Unfolding of `decode` on a buffer that does not start with an EOL. -/
theorem decode_cons_ne (c : Char) (rest : List Char) (hc : c ≠ '\n') :
    decode (c :: rest) =
      match splitAtChar '\n' (c :: rest) with
      | none => .incomplete
      | some (cmdLine, r1) =>
        match parseCommand (String.mk cmdLine) with
        | none => .malformed
        | some cmd =>
          match parseHeaders r1 with
          | .incomplete => .incomplete
          | .malformed => .malformed
          | .ok rawHs r2 =>
            match lookupHeader "content-length" (dedupKeys rawHs) with
            | some lv =>
              match parseNat? lv with
              | none => .malformed
              | some n =>
                if n + 1 ≤ r2.length then
                  match r2.drop n with
                  | d :: r3 =>
                    if d = '\x00' then
                      .ok ⟨some cmd, dedupKeys rawHs, String.mk (r2.take n)⟩
                        ((c :: rest).length - r3.length)
                    else .malformed
                  | [] => .incomplete
                else .incomplete
            | none =>
              match splitAtChar '\x00' r2 with
              | none => .incomplete
              | some (bodyChars, r3) =>
                .ok ⟨some cmd, dedupKeys rawHs, String.mk bodyChars⟩
                  ((c :: rest).length - r3.length) := by
  rw [decode.eq_def]
  simp only [if_neg hc]

/-- Appending bytes to a buffer preserves a complete decode (same frame,
same consumed count) and preserves a malformed decode. -/
theorem decode_append (p s : List Char) :
    (∀ f n, decode p = .ok f n → decode (p ++ s) = .ok f n) ∧
    (decode p = .malformed → decode (p ++ s) = .malformed) := by
  rcases p with _ | ⟨c, rest⟩
  · constructor
    · intro f n h
      simp [decode] at h
    · intro h
      simp [decode] at h
  · by_cases hc : c = '\n'
    · subst hc
      constructor
      · intro f n h
        rw [decode.eq_def] at h
        simp only [if_pos rfl] at h
        injection h with h1 h2
        subst h1
        subst h2
        rw [List.cons_append, decode.eq_def]
        simp
      · intro h
        rw [decode.eq_def] at h
        simp only [if_pos rfl] at h
        cases h
    · rcases h1 : splitAtChar '\n' (c :: rest) with _ | ⟨cmdLine, r1⟩
      · constructor
        · intro f n h
          rw [decode_cons_ne c rest hc, h1] at h
          cases h
        · intro h
          rw [decode_cons_ne c rest hc, h1] at h
          cases h
      · have h1' : splitAtChar '\n' (c :: (rest ++ s)) = some (cmdLine, r1 ++ s) := by
          have := splitAtChar_append_some '\n' (c :: rest) s cmdLine r1 h1
          rwa [List.cons_append] at this
        rcases h2 : parseCommand (String.mk cmdLine) with _ | cmd
        · constructor
          · intro f n h
            rw [decode_cons_ne c rest hc, h1] at h
            simp only [h2] at h
            cases h
          · intro h
            rw [List.cons_append, decode_cons_ne c (rest ++ s) hc, h1']
            simp only [h2]
        · rcases h3 : parseHeaders r1 with _ | _ | ⟨rawHs, r2⟩
          · constructor
            · intro f n h
              rw [decode_cons_ne c rest hc, h1] at h
              simp only [h2, h3] at h
              cases h
            · intro h
              rw [decode_cons_ne c rest hc, h1] at h
              simp only [h2, h3] at h
              cases h
          · have h3' := (parseHeaders_append r1.length r1 le_rfl s).2 h3
            constructor
            · intro f n h
              rw [decode_cons_ne c rest hc, h1] at h
              simp only [h2, h3] at h
              cases h
            · intro h
              rw [List.cons_append, decode_cons_ne c (rest ++ s) hc, h1']
              simp only [h2, h3']
          · have h3' := (parseHeaders_append r1.length r1 le_rfl s).1 rawHs r2 h3
            rcases h4 : lookupHeader "content-length" (dedupKeys rawHs) with _ | lv
            · constructor
              · intro f n h
                rw [decode_cons_ne c rest hc, h1] at h
                simp only [h2, h3, h4] at h
                rcases h5 : splitAtChar '\x00' r2 with _ | ⟨bodyChars, r3⟩
                · simp only [h5] at h
                  cases h
                · simp only [h5] at h
                  injection h with hf hn
                  have h5' := splitAtChar_append_some '\x00' r2 s bodyChars r3 h5
                  rw [List.cons_append, decode_cons_ne c (rest ++ s) hc, h1']
                  simp only [h2, h3', h4, h5']
                  rw [hf, ← hn]
                  congr 1
                  simp only [List.length_cons, List.length_append]
                  omega
              · intro h
                rw [decode_cons_ne c rest hc, h1] at h
                simp only [h2, h3, h4] at h
                rcases h5 : splitAtChar '\x00' r2 with _ | ⟨bodyChars, r3⟩
                · simp only [h5] at h
                  cases h
                · simp only [h5] at h
                  cases h
            · rcases h5 : parseNat? lv with _ | nn
              · constructor
                · intro f n h
                  rw [decode_cons_ne c rest hc, h1] at h
                  simp only [h2, h3, h4, h5] at h
                  cases h
                · intro h
                  rw [List.cons_append, decode_cons_ne c (rest ++ s) hc, h1']
                  simp only [h2, h3', h4, h5]
              · by_cases h6 : nn + 1 ≤ r2.length
                · have h6' : nn + 1 ≤ (r2 ++ s).length := by
                    rw [List.length_append]
                    omega
                  have hdrop : (r2 ++ s).drop nn = r2.drop nn ++ s :=
                    List.drop_append_of_le_length (by omega)
                  have htake : (r2 ++ s).take nn = r2.take nn :=
                    List.take_append_of_le_length (by omega)
                  rcases h7 : r2.drop nn with _ | ⟨d, r3⟩
                  · constructor
                    · intro f n h
                      rw [decode_cons_ne c rest hc, h1] at h
                      simp only [h2, h3, h4, h5, if_pos h6, h7] at h
                      cases h
                    · intro h
                      rw [decode_cons_ne c rest hc, h1] at h
                      simp only [h2, h3, h4, h5, if_pos h6, h7] at h
                      cases h
                  · rw [h7] at hdrop
                    by_cases h8 : d = '\x00'
                    · subst h8
                      constructor
                      · intro f n h
                        rw [decode_cons_ne c rest hc, h1] at h
                        simp only [h2, h3, h4, h5, if_pos h6, h7, if_pos rfl] at h
                        injection h with hf hn
                        rw [List.cons_append, decode_cons_ne c (rest ++ s) hc, h1']
                        simp only [h2, h3', h4, h5, if_pos h6', hdrop, List.cons_append,
                          if_pos rfl, htake]
                        rw [if_pos trivial, hf, ← hn]
                        congr 1
                        simp only [List.length_cons, List.length_append]
                        omega
                      · intro h
                        rw [decode_cons_ne c rest hc, h1] at h
                        simp only [h2, h3, h4, h5, if_pos h6, h7, if_pos rfl] at h
                        cases h
                    · constructor
                      · intro f n h
                        rw [decode_cons_ne c rest hc, h1] at h
                        simp only [h2, h3, h4, h5, if_pos h6, h7, if_neg h8] at h
                        cases h
                      · intro h
                        rw [List.cons_append, decode_cons_ne c (rest ++ s) hc, h1']
                        simp only [h2, h3', h4, h5, if_pos h6', hdrop, List.cons_append,
                          if_neg h8]
                · constructor
                  · intro f n h
                    rw [decode_cons_ne c rest hc, h1] at h
                    simp only [h2, h3, h4, h5, if_neg h6] at h
                    cases h
                  · intro h
                    rw [decode_cons_ne c rest hc, h1] at h
                    simp only [h2, h3, h4, h5, if_neg h6] at h
                    cases h

/-- A complete decode never consumes more bytes than the buffer holds. -/
theorem decode_ok_le (p : List Char) (f : Frame) (n : Nat)
    (h : decode p = .ok f n) : n ≤ p.length := by
  rcases p with _ | ⟨c, rest⟩
  · simp [decode] at h
  · by_cases hc : c = '\n'
    · subst hc
      rw [decode.eq_def] at h
      simp only [if_pos rfl] at h
      injection h with h1 h2
      rw [← h2]
      simp
    · rw [decode_cons_ne c rest hc] at h
      rcases h1 : splitAtChar '\n' (c :: rest) with _ | ⟨cmdLine, r1⟩ <;> rw [h1] at h
      · cases h
      · rcases h2 : parseCommand (String.mk cmdLine) with _ | cmd <;> simp only [h2] at h
        · cases h
        · rcases h3 : parseHeaders r1 with _ | _ | ⟨rawHs, r2⟩ <;> simp only [h3] at h
          · cases h
          · cases h
          · rcases h4 : lookupHeader "content-length" (dedupKeys rawHs) with _ | lv <;>
              simp only [h4] at h
            · rcases h5 : splitAtChar '\x00' r2 with _ | ⟨bodyChars, r3⟩ <;>
                simp only [h5] at h
              · cases h
              · injection h with hf hn
                rw [← hn]
                exact Nat.sub_le _ _
            · rcases h5 : parseNat? lv with _ | nn <;> simp only [h5] at h
              · cases h
              · by_cases h6 : nn + 1 ≤ r2.length
                · simp only [if_pos h6] at h
                  rcases h7 : r2.drop nn with _ | ⟨d, r3⟩ <;> simp only [h7] at h
                  · cases h
                  · by_cases h8 : d = '\x00'
                    · simp only [if_pos h8] at h
                      injection h with hf hn
                      rw [← hn]
                      exact Nat.sub_le _ _
                    · simp only [if_neg h8] at h
                      cases h
                · simp only [if_neg h6] at h
                  cases h

/-- A proper prefix of a wire frame whose decode consumes the whole buffer
always decodes as incomplete — never as a frame and never as malformed. -/
theorem decode_prefix_incomplete (w : List Char) (f : Frame)
    (hw : decode w = .ok f w.length) (i : Nat) (hlt : i < w.length) :
    decode (w.take i) = .incomplete := by
  rcases hd : decode (w.take i) with _ | _ | ⟨f2, n2⟩
  · rfl
  · have hmal := (decode_append (w.take i) (w.drop i)).2 hd
    rw [List.take_append_drop] at hmal
    rw [hmal] at hw
    cases hw
  · have hle := decode_ok_le _ _ _ hd
    have hok := (decode_append (w.take i) (w.drop i)).1 f2 n2 hd
    rw [List.take_append_drop] at hok
    rw [hok] at hw
    injection hw with h1 h2
    rw [List.length_take] at hle
    omega

/-! ## Heartbeat engine and async dispatcher

Modelled from the specification (the STOMP module is not under src):
intervals are kept in milliseconds, clock readings in seconds on one
injected monotonic clock, matching the unit tests' fake clocks. -/

/-- Modelled from the spec: the compiled-in default poll interval
(seconds) used when outgoing heartbeats are disabled. -/
def DEFAULT_INTERVAL : ℚ := 30

/-- Modelled from the spec: heartbeat engine state — negotiated send and
receive intervals in milliseconds, and the last-send / last-receive clock
readings in seconds. -/
structure HeartBeat where
  outgoing_ms : ℚ
  incoming_ms : ℚ
  last_sent_at : ℚ
  last_received_at : ℚ
  deriving DecidableEq, Repr

/-- Modelled from the spec: `configure` — set the spec once and record the
current clock reading as both the last-sent and last-received baselines. -/
def HeartBeat.configure (out_ms in_ms now : ℚ) : HeartBeat :=
  ⟨out_ms, in_ms, now, now⟩

/-- Modelled from the spec: `note_sent` — record a successful write. -/
def HeartBeat.note_sent (hb : HeartBeat) (now : ℚ) : HeartBeat :=
  { hb with last_sent_at := now }

/-- Modelled from the spec: `note_received` — record a successful read of
at least one byte. -/
def HeartBeat.note_received (hb : HeartBeat) (now : ℚ) : HeartBeat :=
  { hb with last_received_at := now }

/-- Modelled from the spec: `outgoing_due` — true iff outgoing heartbeats
are enabled and at least the negotiated interval has elapsed since the
last send. -/
def HeartBeat.outgoing_due (hb : HeartBeat) (now : ℚ) : Prop :=
  0 < hb.outgoing_ms ∧ hb.outgoing_ms / 1000 ≤ now - hb.last_sent_at

/-- Modelled from the spec: `incoming_expired` — true iff incoming
monitoring is enabled and at least twice the negotiated interval has
elapsed since the last received byte. -/
def HeartBeat.incoming_expired (hb : HeartBeat) (now : ℚ) : Prop :=
  0 < hb.incoming_ms ∧ hb.incoming_ms * 2 / 1000 ≤ now - hb.last_received_at

instance (hb : HeartBeat) (now : ℚ) : Decidable (hb.outgoing_due now) := by
  unfold HeartBeat.outgoing_due
  infer_instance

instance (hb : HeartBeat) (now : ℚ) : Decidable (hb.incoming_expired now) := by
  unfold HeartBeat.incoming_expired
  infer_instance

/-- Modelled from the spec: `next_check_interval` in seconds —
`max(0, outgoing_ms/1000 - (now - last_sent_at))` when outgoing heartbeats
are enabled, the fixed default otherwise. -/
def HeartBeat.next_check_interval (hb : HeartBeat) (now : ℚ) : ℚ :=
  if 0 < hb.outgoing_ms then max 0 (hb.outgoing_ms / 1000 - (now - hb.last_sent_at))
  else DEFAULT_INTERVAL

/-- Modelled from the spec: dispatcher lifecycle states; CLOSED is
terminal. -/
inductive DState
  | connecting | connected | closed
  deriving DecidableEq, Repr

/-- Modelled from the spec: callbacks the dispatcher performs into the
frame handler. -/
inductive Event
  | connectCb
  | frameCb (f : Frame)
  | timeoutCb
  deriving DecidableEq, Repr

/-- Modelled from the spec: dispatcher state — lifecycle state, the
exclusively owned transport connection (its closed flag and how many times
a real close was performed on it), the retained partial-frame read buffer,
the outbound frame queue, and the heartbeat engine. -/
structure Dispatcher where
  dstate : DState
  connClosed : Bool
  closeCalls : Nat
  buffer : List Char
  outQueue : List Frame
  hb : HeartBeat
  deriving DecidableEq, Repr

/-- Modelled from the spec: close the owned transport connection
idempotently — a second close is a no-op. -/
def closeConn (d : Dispatcher) : Dispatcher :=
  if d.connClosed then d
  else { d with connClosed := true, closeCalls := d.closeCalls + 1 }

/-- Modelled from the spec: the close notification — mark state CLOSED,
close the owned connection idempotently, and discard the outbound
queue. -/
def handle_close (d : Dispatcher) : Dispatcher :=
  { closeConn d with dstate := .closed, outQueue := [] }

/-- Modelled from the spec: the connect notification — transition to
CONNECTED and invoke the handler's connect callback; a no-op after
close. -/
def handle_connect (d : Dispatcher) : Dispatcher × List Event :=
  if d.dstate = .closed then (d, [])
  else ({ d with dstate := .connected }, [.connectCb])

/-- Modelled from the spec: drain complete frames from the front of the
read buffer in a loop, retaining any trailing partial frame; the flag
reports a `MalformedFrame` condition. -/
def drainBuffer (buf : List Char) : List Frame × List Char × Bool :=
  match decode buf with
  | .incomplete => ([], buf, false)
  | .malformed => ([], buf, true)
  | .ok f n =>
    if hn : 0 < n ∧ n ≤ buf.length then
      let res := drainBuffer (buf.drop n)
      (f :: res.1, res.2.1, res.2.2)
    else ([], buf, true)
termination_by buf.length
decreasing_by
  rw [List.length_drop]
  omega

/-- Modelled from the spec: the readable notification — read the available
bytes, reset receive liveness if at least one byte arrived, feed the codec
in a loop retaining any partial trailing frame, surface each decoded
non-heartbeat frame to the handler, consume heartbeat markers silently; a
malformed frame closes the connection; a no-op after close. -/
def handle_read (d : Dispatcher) (now : ℚ) (data : List Char) :
    Dispatcher × List Event :=
  if d.dstate = .closed then (d, [])
  else
    let d1 := if data.isEmpty then d else { d with hb := d.hb.note_received now }
    let res := drainBuffer (d1.buffer ++ data)
    let events := (res.1.filter (fun f => f.command.isSome)).map Event.frameCb
    if res.2.2 then
      ({ closeConn d1 with dstate := .closed, outQueue := [], buffer := res.2.1 }, events)
    else
      ({ d1 with buffer := res.2.1 }, events)

/-- Modelled from the spec: the writable-poll query — true if the outbound
queue is non-empty, or if an outgoing heartbeat is due, in which case, as a
side effect of this very query, one heartbeat marker frame is appended to
the outbound queue; false (with no effect) after close. -/
def writable (d : Dispatcher) (now : ℚ) : Dispatcher × Bool :=
  if d.dstate = .closed then (d, false)
  else if d.outQueue ≠ [] then (d, true)
  else if d.hb.outgoing_due now then
    ({ d with outQueue := d.outQueue ++ [heartbeatFrame] }, true)
  else (d, false)

/-- Modelled from the spec: the timeout notification — if the incoming
heartbeat has expired, invoke the handler's timeout callback (whose
expected reaction, performed here, is to close the owned connection) and
transition to CLOSED; a no-op after close, so the callback fires exactly
once per expiry condition. -/
def handle_timeout (d : Dispatcher) (now : ℚ) : Dispatcher × List Event :=
  if d.dstate = .closed then (d, [])
  else if d.hb.incoming_expired now then
    ({ closeConn d with dstate := .closed, outQueue := [] }, [.timeoutCb])
  else (d, [])

/-- Modelled from the spec: `configure_heartbeat` — delegate to the
heartbeat engine's `configure` with the current clock reading. -/
def setHeartBeat (d : Dispatcher) (out_ms in_ms now : ℚ) : Dispatcher :=
  { d with hb := HeartBeat.configure out_ms in_ms now }

/-- Modelled from the spec: the dispatcher's `next_check_interval`
delegates to the heartbeat engine. -/
def Dispatcher.next_check_interval (d : Dispatcher) (now : ℚ) : ℚ :=
  d.hb.next_check_interval now

/-- A dispatcher bound to a live (not yet closed) connection in the
CONNECTED state with empty buffer and queue. -/
def mkDispatcher (hb : HeartBeat) : Dispatcher :=
  ⟨.connected, false, 0, [], [], hb⟩

/-! ## virt metadata key/value marshaling

Embedded from `lib/vdsm/virt/metadata.py`: `Metadata.dump` / `Metadata.load`
(default construction, no namespace), `_keyvalue_to_elem` /
`_elem_to_keyvalue`, `_match_args`, `_find_device` and
`Descriptor._find_device`. XML elements are modelled in memory (tag,
attribute mapping, text, children), as produced and consumed by these
functions. -/

/-- Python values supported by the metadata marshaling: bool, int, float
and text strings (`_keyvalue_to_elem` raises `UnsupportedType` on anything
else). A float value is represented by its canonical Python repr string:
Python 3 guarantees `float(repr(x)) == x` with `str` equal to `repr` for
floats, so the textual representation is exact. -/
inductive PyValue
  | vbool (b : Bool)
  | vint (n : Int)
  | vfloat (r : String)
  | vstr (s : String)
  deriving DecidableEq, Repr

/-- Python `str(value)` for a supported metadata value. -/
def pyStr : PyValue → String
  | .vbool b => if b then "True" else "False"
  | .vint n => intToStr n
  | .vfloat r => r
  | .vstr s => s

/-- An in-memory `ElementTree.Element`: tag, attribute mapping, text and
subelements. -/
structure Elem where
  tag : String
  attrib : List (String × String)
  text : String
  children : List Elem

/-- ASCII-adequate `str.lower()` used by `tobool`, mapped over the
characters. -/
def strLower (s : String) : String :=
  String.mk (s.data.map Char.toLower)

/-- Modelled from the spec: `vdsm.common.conv.tobool` (the `conv` module
is not under src) — a string is true when it case-insensitively equals
"true", otherwise it is parsed as an integer and compared with zero, and
any parse failure yields False. -/
def tobool (s : String) : Bool :=
  if strLower s = "true" then true
  else
    match parseInt? s with
    | some n => n != 0
    | none => false

/-- `_keyvalue_to_elem`: build the subelement for one key/value pair —
a `type` attribute of `bool`, `int` or `float` for those value types (a
plain string gets no `type` attribute) and text `str(value)`. -/
def keyvalue_to_elem (key : String) (value : PyValue) : Elem :=
  let ty : List (String × String) :=
    match value with
    | .vbool _ => [("type", "bool")]
    | .vint _ => [("type", "int")]
    | .vfloat _ => [("type", "float")]
    | .vstr _ => []
  ⟨key, ty, pyStr value, []⟩

/-- `_elem_to_keyvalue`: recover the key and typed value of a subelement
from its `type` attribute; without one (or with an unrecognized one) the
text is kept as a string. `none` models a raised `ValueError` from
`int(...)`. -/
def elem_to_keyvalue (e : Elem) : Option (String × PyValue) :=
  match e.attrib.lookup "type" with
  | some t =>
    if t = "bool" then some (e.tag, .vbool (tobool e.text))
    else if t = "int" then (parseInt? e.text).map (fun n => (e.tag, .vint n))
    else if t = "float" then some (e.tag, .vfloat e.text)
    else some (e.tag, .vstr e.text)
  | none => some (e.tag, .vstr e.text)

/-- `Metadata.dump` (no namespace): the `name` element whose subelements
carry the keyword arguments. -/
def Metadata.dump (name : String) (kwargs : List (String × PyValue)) : Elem :=
  ⟨name, [], "", kwargs.map (fun kv => keyvalue_to_elem kv.1 kv.2)⟩

/-- `Metadata.load` (no namespace): recover the key/value content of a
metadata element, using the `type` attributes to restore types. -/
def Metadata.load (elem : Elem) : Option (List (String × PyValue)) :=
  elem.children.mapM elem_to_keyvalue

/-- `_match_args`: every given attribute must be present with the same
value; extra attributes on the device are ignored. -/
def match_args (kwargs attrs : List (String × String)) : Bool :=
  kwargs.all fun kv =>
    match attrs.lookup kv.1 with
    | some v => v == kv.2
    | none => false

/-- Result of a device lookup: the matching device, no match, or a raised
`MissingDevice`. -/
inductive FindResult (α : Type)
  | found (a : α)
  | noDevice
  | missingDevice
  deriving DecidableEq, Repr

/-- `Descriptor._find_device`: the devices whose stored attributes match
all of `kwargs`; more than one match raises `MissingDevice`, no match
yields None, one match yields its data. -/
def Descriptor.find_device {α : Type} (devices : List (List (String × String) × α))
    (kwargs : List (String × String)) : FindResult α :=
  let ds := (devices.filter (fun dev => match_args kwargs dev.1)).map (fun dev => dev.2)
  if ds.length > 1 then .missingDevice
  else
    match ds with
    | [] => .noDevice
    | d :: _ => .found d

/-- `_find_device` (no namespace): the `device` children of the vm element
matching all the given attributes, with the same ambiguity rule — XPath
`./device[@k="v"]...` keeps a direct child of tag `device` iff each listed
attribute is present with that exact value. -/
def find_device (vm : Elem) (attrs : List (String × String)) : FindResult Elem :=
  let ds := vm.children.filter (fun ch => ch.tag == "device" && match_args attrs ch.attrib)
  if ds.length > 1 then .missingDevice
  else
    match ds with
    | [] => .noDevice
    | d :: _ => .found d

/-! ## Helper lemmas for the dispatcher theorems -/

theorem closeConn_connClosed (d : Dispatcher) : (closeConn d).connClosed = true := by
  rw [closeConn]
  by_cases h : d.connClosed
  · rw [if_pos h]
    exact h
  · rw [if_neg h]

theorem closeConn_of_closed (d : Dispatcher) (h : d.connClosed = true) :
    closeConn d = d := by
  rw [closeConn, if_pos h]

theorem drainBuffer_of_incomplete (buf : List Char) (h : decode buf = .incomplete) :
    drainBuffer buf = ([], buf, false) := by
  rw [drainBuffer.eq_def, h]

theorem drainBuffer_single (buf : List Char) (f : Frame)
    (hd : decode buf = .ok f buf.length) (h0 : 0 < buf.length) :
    drainBuffer buf = ([f], [], false) := by
  rw [drainBuffer.eq_def, hd]
  simp only []
  rw [dif_pos ⟨h0, le_rfl⟩]
  have hdrop : buf.drop buf.length = [] := by simp
  rw [hdrop]
  have hnil : drainBuffer [] = ([], [], false) := drainBuffer_of_incomplete [] rfl
  rw [hnil]

/-! ## Claim theorems -/

/-- C2: `incoming_expired()` holds iff incoming heartbeats are enabled and
at least `incoming_ms * 2` milliseconds elapsed since the last received
byte; on the timeout notification while expired the dispatcher invokes the
handler's timeout callback exactly once (a second notification while still
expired is a no-op) and the owned connection transitions to closed. -/
theorem C2_incoming_expiry :
    (∀ (hb : HeartBeat) (now : ℚ),
      hb.incoming_expired now ↔
        0 < hb.incoming_ms ∧ hb.incoming_ms * 2 ≤ (now - hb.last_received_at) * 1000) ∧
    (∀ (d : Dispatcher) (now now2 : ℚ), d.dstate = .connected →
      d.hb.incoming_expired now →
      (handle_timeout d now).2 = [.timeoutCb] ∧
      (handle_timeout d now).1.dstate = .closed ∧
      (handle_timeout d now).1.connClosed = true ∧
      (handle_timeout (handle_timeout d now).1 now2).2 = [] ∧
      (handle_timeout (handle_timeout d now).1 now2).1 = (handle_timeout d now).1) := by
  constructor
  · intro hb now
    rw [HeartBeat.incoming_expired]
    constructor
    · rintro ⟨h1, h2⟩
      refine ⟨h1, ?_⟩
      rw [div_le_iff₀ (by norm_num : (0:ℚ) < 1000)] at h2
      linarith
    · rintro ⟨h1, h2⟩
      refine ⟨h1, ?_⟩
      rw [div_le_iff₀ (by norm_num : (0:ℚ) < 1000)]
      linarith
  · intro d now now2 hstate hexp
    have hne : d.dstate ≠ DState.closed := by
      rw [hstate]
      intro hcontra
      cases hcontra
    rw [handle_timeout, if_neg hne, if_pos hexp]
    refine ⟨rfl, rfl, closeConn_connClosed d, ?_, ?_⟩
    · rw [handle_timeout, if_pos rfl]
    · rw [handle_timeout, if_pos rfl]

/-- C2 witness: the engine configured with `incoming_ms = 4000` at clock
4000000 is expired at clock 4000009 (9000 ms elapsed, more than 8000 ms),
and the timeout notification fires the callback once, closes the owned
connection, and a repeated notification is a no-op. -/
theorem C2_incoming_expiry_witness :
    ((mkDispatcher (HeartBeat.configure 12000 4000 4000000)).hb.incoming_expired 4000009) ∧
    (handle_timeout (mkDispatcher (HeartBeat.configure 12000 4000 4000000)) 4000009).2
      = [.timeoutCb] ∧
    (handle_timeout (mkDispatcher (HeartBeat.configure 12000 4000 4000000)) 4000009).1.dstate
      = .closed ∧
    (handle_timeout (mkDispatcher (HeartBeat.configure 12000 4000 4000000)) 4000009).1.connClosed
      = true ∧
    (handle_timeout
      (handle_timeout (mkDispatcher (HeartBeat.configure 12000 4000 4000000)) 4000009).1
      4000012).2 = [] := by
  have hexp : (mkDispatcher (HeartBeat.configure 12000 4000 4000000)).hb.incoming_expired
      4000009 := by
    rw [mkDispatcher, HeartBeat.configure, HeartBeat.incoming_expired]
    norm_num
  have hmain := C2_incoming_expiry.2 (mkDispatcher (HeartBeat.configure 12000 4000 4000000))
    4000009 4000012 rfl hexp
  exact ⟨hexp, hmain.1, hmain.2.1, hmain.2.2.1, hmain.2.2.2.1⟩

/-- C3: with `outgoing_ms = 8000` configured at time `t`, nothing enqueued
and at least 12 seconds elapsed, the writable-poll query returns true and,
as a side effect of that single query, exactly one heartbeat marker frame
is appended to the (previously empty) outbound queue. -/
theorem C3_writable_heartbeat (d : Dispatcher) (t now : ℚ)
    (hstate : d.dstate = .connected)
    (hq : d.outQueue = [])
    (hhb : d.hb = HeartBeat.configure 8000 0 t)
    (helapsed : t + 12 ≤ now) :
    (writable d now).2 = true ∧ (writable d now).1.outQueue = [heartbeatFrame] := by
  have hne : d.dstate ≠ DState.closed := by
    rw [hstate]
    intro hcontra
    cases hcontra
  have hdue : d.hb.outgoing_due now := by
    rw [hhb, HeartBeat.configure, HeartBeat.outgoing_due]
    constructor
    · norm_num
    · simp only []
      rw [div_le_iff₀ (by norm_num : (0:ℚ) < 1000)]
      linarith
  have hnonempty : ¬(d.outQueue ≠ []) := by
    rw [hq]
    simp
  rw [writable, if_neg hne, if_neg hnonempty, if_pos hdue]
  refine ⟨rfl, ?_⟩
  simp only [hq, List.nil_append]

/-- C3 witness at the unit test's clock values: configured at 4000000 with
8000 ms outgoing, polled at 4000012. -/
theorem C3_writable_heartbeat_witness :
    (writable (mkDispatcher (HeartBeat.configure 8000 0 4000000)) 4000012).2 = true ∧
    (writable (mkDispatcher (HeartBeat.configure 8000 0 4000000)) 4000012).1.outQueue
      = [heartbeatFrame] :=
  C3_writable_heartbeat (mkDispatcher (HeartBeat.configure 8000 0 4000000)) 4000000 4000012
    rfl rfl rfl (by norm_num)

/-- C4: whenever outgoing heartbeats are enabled, `next_check_interval()`
returns `max(0, outgoing_ms/1000 - (now - last_sent_at))`; in particular
with `outgoing_ms = 8000, incoming_ms = 0` configured and the clock
advanced 2 seconds, it returns 6. -/
theorem C4_next_check_interval :
    (∀ (hb : HeartBeat) (now : ℚ), 0 < hb.outgoing_ms →
      hb.next_check_interval now = max 0 (hb.outgoing_ms / 1000 - (now - hb.last_sent_at))) ∧
    (∀ t : ℚ, (HeartBeat.configure 8000 0 t).next_check_interval (t + 2) = 6) := by
  constructor
  · intro hb now h
    rw [HeartBeat.next_check_interval, if_pos h]
  · intro t
    rw [HeartBeat.configure, HeartBeat.next_check_interval]
    rw [if_pos (by norm_num)]
    simp only []
    have h1 : (8000 : ℚ) / 1000 - (t + 2 - t) = 6 := by
      norm_num
    rw [h1]
    norm_num

/-- C4 witness: concrete engine state with `outgoing_ms = 8000`, last send
at 4000000, queried at 4000002 — the advisory interval is 6 seconds. -/
theorem C4_next_check_interval_witness :
    (HeartBeat.configure 8000 0 4000000).next_check_interval 4000002
      = max 0 ((8000 : ℚ) / 1000 - ((4000002 : ℚ) - 4000000)) ∧
    (HeartBeat.configure 8000 0 4000000).next_check_interval (4000000 + 2) = 6 :=
  ⟨C4_next_check_interval.1 (HeartBeat.configure 8000 0 4000000) 4000002
      (by rw [HeartBeat.configure]; norm_num),
   C4_next_check_interval.2 4000000⟩

/-- C5: whenever outgoing heartbeats are disabled, `next_check_interval()`
returns the fixed default interval, regardless of the clock and of whether
incoming monitoring is active. -/
theorem C5_default_interval (hb : HeartBeat) (now : ℚ) (h : hb.outgoing_ms = 0) :
    hb.next_check_interval now = DEFAULT_INTERVAL := by
  rw [HeartBeat.next_check_interval, if_neg]
  rw [h]
  exact lt_irrefl 0

/-- C5 witness: both with incoming monitoring disabled and with it active
(`incoming_ms = 8000`), and at different clock readings, the default is
returned. -/
theorem C5_default_interval_witness :
    (HeartBeat.configure 0 0 4000000).next_check_interval 4000002 = DEFAULT_INTERVAL ∧
    (HeartBeat.configure 0 8000 4000000).next_check_interval 4000006 = DEFAULT_INTERVAL :=
  ⟨C5_default_interval (HeartBeat.configure 0 0 4000000) 4000002 rfl,
   C5_default_interval (HeartBeat.configure 0 8000 4000000) 4000006 rfl⟩

/-- C6: close is terminal and idempotent — the close notification marks
the state CLOSED, closes the owned transport connection (a second close
notification changes nothing, in particular performs no second transport
close), and discards the outbound queue; every subsequent readable,
writable or timeout notification is a no-op that emits no callbacks and
leaves the state, including the emptied outbound queue, unchanged. -/
theorem C6_close_terminal (d : Dispatcher) (now : ℚ) (data : List Char) :
    (handle_close d).dstate = .closed ∧
    (handle_close d).connClosed = true ∧
    (handle_close d).outQueue = [] ∧
    handle_close (handle_close d) = handle_close d ∧
    handle_read (handle_close d) now data = (handle_close d, []) ∧
    writable (handle_close d) now = (handle_close d, false) ∧
    handle_timeout (handle_close d) now = (handle_close d, []) := by
  obtain ⟨ds, cc, ncl, bf, q, hb⟩ := d
  by_cases hcc : cc <;>
    refine ⟨?_, ?_, ?_, ?_, ?_, ?_, ?_⟩ <;>
      simp [handle_close, closeConn, handle_read, writable, handle_timeout, hcc]

/-- C1: for every well-formed frame (known command; header values may
contain colon, line terminator or backslash characters; body consistent
with any content-length header), decoding the encoding yields the frame
back, consuming the whole wire image, and decoding reverses exactly the
three header-value escapes applied on encode. -/
theorem C1_roundtrip (f : Frame) (h : WellFormed f) :
    decode (encode f) = .ok f (encode f).length ∧
    ∀ l : List Char, unescapeChars (escapeChars l) = l :=
  ⟨decode_encode f h, unescapeChars_escapeChars⟩

/-- A concrete frame whose header values exercise all three escapes
(colon, EOL, backslash) and whose content-length matches its body. -/
def cFrame : Frame :=
  ⟨some .message, [("destination", "a:b\nc\\d"), ("content-length", "2")], "hi"⟩

theorem natToStr_two : natToStr 2 = "2" := by
  have h0 : natDigitsRev 0 = [] := by
    rw [natDigitsRev]
    rfl
  have h1 : natDigitsRev 2 = [2] := by
    rw [natDigitsRev]
    norm_num [h0]
  rw [natToStr, if_neg (by norm_num), h1]
  rfl

theorem cFrame_wf : WellFormed cFrame := by
  rw [WellFormed]
  rw [if_neg (by simp [cFrame])]
  refine ⟨by decide, by decide, Or.inl ?_⟩
  show some "2" = some (natToStr 2)
  rw [natToStr_two]

/-- C1 witness: the round-trip at the concrete frame, with the
well-formedness hypothesis discharged. -/
theorem C1_roundtrip_witness :
    WellFormed cFrame ∧ decode (encode cFrame) = .ok cFrame (encode cFrame).length :=
  ⟨cFrame_wf, (C1_roundtrip cFrame cFrame_wf).1⟩

/-- C7: for every well-formed command frame whose wire bytes are split at
any interior point into two successive reads, the first read decodes to no
frame (decode reports incomplete, and the dispatcher retains the read
bytes in its buffer, surfacing nothing), and after the second read
delivers the remainder exactly one decoded frame is surfaced to the frame
handler and the buffer is empty — no duplicate and no loss. -/
theorem C7_split_reads (f : Frame) (h : WellFormed f) (hcmd : f.command.isSome)
    (i : Nat) (h0 : 0 < i) (hi : i < (encode f).length)
    (d : Dispatcher) (hstate : d.dstate = .connected) (hbuf : d.buffer = [])
    (now now2 : ℚ) :
    decode ((encode f).take i) = .incomplete ∧
    (handle_read d now ((encode f).take i)).2 = [] ∧
    (handle_read d now ((encode f).take i)).1.buffer = (encode f).take i ∧
    (handle_read (handle_read d now ((encode f).take i)).1 now2 ((encode f).drop i)).2
      = [.frameCb f] ∧
    (handle_read (handle_read d now ((encode f).take i)).1 now2 ((encode f).drop i)).1.buffer
      = [] := by
  have hdec := decode_encode f h
  have hinc := decode_prefix_incomplete (encode f) f hdec i hi
  have hne : d.dstate ≠ DState.closed := by
    rw [hstate]
    intro hcontra
    cases hcontra
  have htake_ne : ((encode f).take i).isEmpty = false := by
    rw [List.isEmpty_eq_false_iff_exists_mem]
    have hlen : ((encode f).take i).length = i := by
      rw [List.length_take]
      omega
    rcases hx : (encode f).take i with _ | ⟨x, xs⟩
    · rw [hx] at hlen
      simp at hlen
      omega
    · exact ⟨x, by simp [hx]⟩
  have hstep1 : handle_read d now ((encode f).take i)
      = ({ d with hb := d.hb.note_received now, buffer := (encode f).take i }, []) := by
    rw [handle_read, if_neg hne]
    simp only [htake_ne, Bool.false_eq_true, if_false]
    rw [hbuf, List.nil_append]
    rw [drainBuffer_of_incomplete _ hinc]
    simp
  rw [hstep1]
  refine ⟨hinc, rfl, rfl, ?_⟩
  have hdrop_ne : ((encode f).drop i).isEmpty = false := by
    rw [List.isEmpty_eq_false_iff_exists_mem]
    have hlen : ((encode f).drop i).length = (encode f).length - i := List.length_drop _ _
    rcases hx : (encode f).drop i with _ | ⟨x, xs⟩
    · rw [hx] at hlen
      simp at hlen
      omega
    · exact ⟨x, by simp [hx]⟩
  have hrecombine : (encode f).take i ++ (encode f).drop i = encode f :=
    List.take_append_drop i (encode f)
  have hdrain : drainBuffer (encode f) = ([f], [], false) :=
    drainBuffer_single (encode f) f hdec (by omega)
  have hfilter : ([f].filter (fun fr => fr.command.isSome)).map Event.frameCb
      = [.frameCb f] := by
    rw [List.filter_cons]
    simp only [hcmd, if_pos]
    rfl
  constructor
  · rw [handle_read, if_neg hne]
    simp only [hdrop_ne, Bool.false_eq_true, if_false]
    rw [hrecombine, hdrain]
    simp only [Bool.false_eq_true, if_false]
    rw [hfilter]
  · rw [handle_read, if_neg hne]
    simp only [hdrop_ne, Bool.false_eq_true, if_false]
    rw [hrecombine, hdrain]
    simp only [Bool.false_eq_true, if_false]

/-- C7 witness: the concrete frame's encoding split after its fifth byte,
read in two pieces by a freshly connected dispatcher. -/
theorem C7_split_reads_witness :
    decode ((encode cFrame).take 5) = .incomplete ∧
    (handle_read
      (handle_read (mkDispatcher (HeartBeat.configure 0 0 0)) 1 ((encode cFrame).take 5)).1
      2 ((encode cFrame).drop 5)).2 = [.frameCb cFrame] := by
  have h := C7_split_reads cFrame cFrame_wf rfl 5 (by norm_num)
    (by decide) (mkDispatcher (HeartBeat.configure 0 0 0)) rfl rfl 1 2
  exact ⟨h.1, h.2.2.2.1⟩

/-- C8: a buffer holding a single bare line terminator decodes as the
heartbeat marker frame — no command, no body — consuming exactly that
terminator; the dispatcher consumes such a read silently: it resets
receive liveness but surfaces nothing to the frame handler. -/
theorem C8_heartbeat_marker (d : Dispatcher) (now : ℚ)
    (hstate : d.dstate = .connected) (hbuf : d.buffer = []) :
    decode ['\n'] = .ok heartbeatFrame 1 ∧
    heartbeatFrame.command = none ∧
    heartbeatFrame.body = "" ∧
    (handle_read d now ['\n']).2 = [] ∧
    (handle_read d now ['\n']).1.buffer = [] ∧
    (handle_read d now ['\n']).1.hb.last_received_at = now := by
  have hne : d.dstate ≠ DState.closed := by
    rw [hstate]
    intro hcontra
    cases hcontra
  have hdrain : drainBuffer ['\n'] = ([heartbeatFrame], [], false) :=
    drainBuffer_single ['\n'] heartbeatFrame rfl (by norm_num)
  have hstep : handle_read d now ['\n']
      = ({ d with hb := d.hb.note_received now, buffer := [] }, []) := by
    rw [handle_read, if_neg hne]
    simp only [List.isEmpty_cons, Bool.false_eq_true, if_false]
    rw [hbuf, List.nil_append, hdrain]
    simp [heartbeatFrame]
  rw [hstep]
  exact ⟨rfl, rfl, rfl, rfl, rfl, rfl⟩

/-- C8 witness: a freshly connected dispatcher consuming one bare EOL. -/
theorem C8_heartbeat_marker_witness :
    decode ['\n'] = .ok heartbeatFrame 1 ∧
    (handle_read (mkDispatcher (HeartBeat.configure 0 0 0)) 7 ['\n']).2 = [] ∧
    (handle_read (mkDispatcher (HeartBeat.configure 0 0 0)) 7 ['\n']).1.hb.last_received_at
      = 7 := by
  have h := C8_heartbeat_marker (mkDispatcher (HeartBeat.configure 0 0 0)) 7 rfl rfl
  exact ⟨h.1, h.2.2.2.1, h.2.2.2.2.2⟩

theorem elem_keyvalue_roundtrip (k : String) (v : PyValue) :
    elem_to_keyvalue (keyvalue_to_elem k v) = some (k, v) := by
  cases v with
  | vbool b => cases b <;> rfl
  | vint n =>
    have hl : (keyvalue_to_elem k (.vint n)).attrib.lookup "type" = some "int" := rfl
    rw [elem_to_keyvalue, hl]
    show (parseInt? (intToStr n)).map (fun m => (k, PyValue.vint m))
      = some (k, PyValue.vint n)
    rw [parseInt?_intToStr]
    rfl
  | vfloat r => rfl
  | vstr s => rfl

/-- C9: the metadata key/value marshaling round-trips typed values — for
every group name and every keyword mapping of bool, int, float or string
values, `Metadata.load (Metadata.dump name kwargs)` recovers `kwargs`;
`dump` records a `type` attribute (`bool`, `int` or `float`) on each typed
subelement and none on a string one, and `load` restores the typed value
from that attribute, an element without a `type` attribute loading as a
string. -/
theorem C9_metadata_roundtrip :
    (∀ (name : String) (kwargs : List (String × PyValue)),
      Metadata.load (Metadata.dump name kwargs) = some kwargs) ∧
    (∀ (k : String) (b : Bool),
      (keyvalue_to_elem k (.vbool b)).attrib = [("type", "bool")]) ∧
    (∀ (k : String) (n : Int),
      (keyvalue_to_elem k (.vint n)).attrib = [("type", "int")]) ∧
    (∀ (k r : String),
      (keyvalue_to_elem k (.vfloat r)).attrib = [("type", "float")]) ∧
    (∀ (k s : String), (keyvalue_to_elem k (.vstr s)).attrib = []) ∧
    (∀ e : Elem, e.attrib.lookup "type" = none →
      elem_to_keyvalue e = some (e.tag, .vstr e.text)) := by
  refine ⟨?_, fun k b => rfl, fun k n => rfl, fun k r => rfl, fun k s => rfl, ?_⟩
  · intro name kwargs
    rw [Metadata.load, Metadata.dump]
    simp only []
    induction kwargs with
    | nil => rfl
    | cons kv t ih =>
      rw [List.map_cons, List.mapM_cons, elem_keyvalue_roundtrip, ih]
      simp
  · intro e htype
    rw [elem_to_keyvalue, htype]

/-- C9 witness: a mapping holding all four value shapes round-trips, and a
concrete untyped element loads as a string. -/
theorem C9_metadata_roundtrip_witness :
    Metadata.load (Metadata.dump "test"
        [("flag", .vbool false), ("bar", .vint (-42)),
         ("ratio2", .vfloat "0.5"), ("name", .vstr "vm0")])
      = some [("flag", .vbool false), ("bar", .vint (-42)),
              ("ratio2", .vfloat "0.5"), ("name", .vstr "vm0")] ∧
    (⟨"a", [], "some value", []⟩ : Elem).attrib.lookup "type" = none ∧
    elem_to_keyvalue ⟨"a", [], "some value", []⟩
      = some ("a", .vstr "some value") :=
  ⟨C9_metadata_roundtrip.1 "test" _,
   rfl,
   C9_metadata_roundtrip.2.2.2.2.2 ⟨"a", [], "some value", []⟩ rfl⟩

/-- C10: device lookup in the VM metadata treats ambiguity, not absence,
as the error — both `Descriptor._find_device` (over the stored
attribute/data pairs) and `_find_device` (over the `device` children of
the metadata element): no match yields None, exactly one match yields that
device, and `MissingDevice` is raised iff more than one device matches;
a device matches iff every given attribute is present on it with exactly
the given value. -/
theorem C10_find_device_spec :
    (∀ (α : Type) (devices : List (List (String × String) × α))
        (kwargs : List (String × String)),
      (devices.filter (fun dev => match_args kwargs dev.1) = [] →
        Descriptor.find_device devices kwargs = .noDevice) ∧
      (∀ attrs a, devices.filter (fun dev => match_args kwargs dev.1) = [(attrs, a)] →
        Descriptor.find_device devices kwargs = .found a) ∧
      (Descriptor.find_device devices kwargs = .missingDevice ↔
        1 < (devices.filter (fun dev => match_args kwargs dev.1)).length)) ∧
    (∀ (vm : Elem) (attrs : List (String × String)),
      (vm.children.filter (fun ch => ch.tag == "device" && match_args attrs ch.attrib)
          = [] → find_device vm attrs = .noDevice) ∧
      (∀ dev, vm.children.filter
          (fun ch => ch.tag == "device" && match_args attrs ch.attrib) = [dev] →
        find_device vm attrs = .found dev) ∧
      (find_device vm attrs = .missingDevice ↔
        1 < (vm.children.filter
          (fun ch => ch.tag == "device" && match_args attrs ch.attrib)).length)) ∧
    (∀ (kwargs attrs : List (String × String)),
      match_args kwargs attrs = true ↔
        ∀ kv ∈ kwargs, attrs.lookup kv.1 = some kv.2) := by
  refine ⟨?_, ?_, ?_⟩
  · intro α devices kwargs
    rw [Descriptor.find_device]
    refine ⟨?_, ?_, ?_⟩
    · intro hnil
      rw [hnil]
      rfl
    · intro attrs a hone
      rw [hone]
      rfl
    · rcases hf : devices.filter (fun dev => match_args kwargs dev.1) with _ | ⟨d1, rest⟩
      · rw [hf]
        simp
      · rw [hf]
        rcases rest with _ | ⟨d2, rest2⟩
        · rw [if_neg (by simp)]
          show FindResult.found d1.2 = FindResult.missingDevice ↔ 1 < [d1].length
          simp
        · simp only [List.map_cons, List.length_cons, List.length_map]
          constructor
          · intro _
            omega
          · intro _
            rw [if_pos (by omega)]
  · intro vm attrs
    rw [find_device]
    refine ⟨?_, ?_, ?_⟩
    · intro hnil
      rw [hnil]
      rfl
    · intro dev hone
      rw [hone]
      rfl
    · rcases hf : vm.children.filter
          (fun ch => ch.tag == "device" && match_args attrs ch.attrib) with _ | ⟨d1, rest⟩
      · rw [hf]
        simp
      · rw [hf]
        rcases rest with _ | ⟨d2, rest2⟩
        · rw [if_neg (by simp)]
          show FindResult.found d1 = FindResult.missingDevice ↔ 1 < [d1].length
          simp
        · simp only [List.length_cons]
          constructor
          · intro _
            omega
          · intro _
            rw [if_pos (by omega)]
  · intro kwargs attrs
    rw [match_args, List.all_eq_true]
    constructor
    · intro hall kv hmem
      have := hall kv hmem
      rcases hl : attrs.lookup kv.1 with _ | v
      · rw [hl] at this
        cases this
      · rw [hl] at this
        simp only [beq_iff_eq] at this
        rw [this]
    · intro hall kv hmem
      rw [hall kv hmem]
      simp

/-- C10 witness: two stored devices, one matching attribute set — the
single matching device's data is returned; and a duplicated device raises
`MissingDevice` while an absent one yields None. -/
theorem C10_find_device_spec_witness :
    Descriptor.find_device
      [([("id", "d0")], (0 : Nat)), ([("addr", "0xF00"), ("class", "pci")], 1)]
      [("addr", "0xF00")] = .found 1 ∧
    Descriptor.find_device
      [([("id", "d0")], (0 : Nat)), ([("id", "d0")], 1)] [("id", "d1")] = .noDevice ∧
    Descriptor.find_device
      [([("id", "d0")], (0 : Nat)), ([("id", "d0")], 1)] [("id", "d0")] = .missingDevice ∧
    find_device
      ⟨"vm", [], "", [⟨"device", [("id", "dev0")], "", []⟩]⟩ [("id", "dev0")]
      = .found ⟨"device", [("id", "dev0")], "", []⟩ := by
  refine ⟨?_, ?_, ?_, ?_⟩
  · exact (C10_find_device_spec.1 Nat
      [([("id", "d0")], 0), ([("addr", "0xF00"), ("class", "pci")], 1)]
      [("addr", "0xF00")]).2.1 [("addr", "0xF00"), ("class", "pci")] 1 (by decide)
  · exact (C10_find_device_spec.1 Nat
      [([("id", "d0")], 0), ([("id", "d0")], 1)] [("id", "d1")]).1 (by decide)
  · exact (C10_find_device_spec.1 Nat
      [([("id", "d0")], 0), ([("id", "d0")], 1)] [("id", "d0")]).2.2.2 (by decide)
  · exact (C10_find_device_spec.2.1
      ⟨"vm", [], "", [⟨"device", [("id", "dev0")], "", []⟩]⟩ [("id", "dev0")]).2.1
      ⟨"device", [("id", "dev0")], "", []⟩ (by rfl)

end Vdsm
